import Mathlib

/-!
Shallow embedding of the differential-loading post-processing pipeline of
`packages/angular_devkit/build_angular/src/browser/index.ts`
(`buildWebpackBrowser`) and of
`packages/angular_devkit/build_angular/src/angular-cli-files/plugins/common-js-usage-warn-plugin.ts`
(`CommonJsUsageWarnPlugin`), together with theorems settling the frozen
claims about this code.

Conventions of the embedding:
* TypeScript strings are Lean `String`s; `string | undefined` is `Option String`.
* JavaScript truthiness of an optional string (`!s` is true for `undefined`
  and for `""`) is modelled explicitly (`jsTruthyOptStr` / `jsFalsyOptStr`).
* Filesystem reads are passed in as function parameters (`read`, `readMap`);
  `fs.unlinkSync` side effects are not observable by any claim and are dropped.
* The worker pool delivers results in completion order; this nondeterminism is
  modelled by quantifying over a completion order that is a permutation of the
  submitted batch.
* A JavaScript thrown value is `JsValue`; a fallible step is `Except JsValue`.
-/

namespace AngularBuild

/-- `EmittedFiles` record from `@angular-devkit/build-webpack` as used by
`buildWebpackBrowser`: `{ id?, name?, file, extension, initial, asset? }`. -/
structure EmittedFile where
  id : Option String := none
  name : Option String := none
  file : String
  extension : String
  initial : Bool := false
  asset : Bool := false
deriving Repr, DecidableEq

/-- JS truthiness of an optional string: `undefined` and `""` are falsy. -/
def jsTruthyOptStr : Option String → Bool
  | none => false
  | some s => s != ""

/-- JS falsiness of an optional string (`!s`). -/
def jsFalsyOptStr (o : Option String) : Bool := !jsTruthyOptStr o

/-- JS template-literal rendering of a possibly-undefined string
(`${s}` prints `undefined` when `s` is `undefined`). -/
def jsTemplateStr : Option String → String
  | none => "undefined"
  | some s => s

/-- `String.prototype.includes` (substring containment). -/
def jsIncludes (s sub : String) : Bool :=
  if sub = "" then true else (s.splitOn sub).length ≥ 2

/-- Do the characters of the second list begin with the first list?
(kernel-reducible core of the JS `startsWith`/`endsWith` string tests). -/
def charsBeginWith : List Char → List Char → Bool
  | [], _ => true
  | _ :: _, [] => false
  | p :: ps, c :: cs => p == c && charsBeginWith ps cs

/-- `String.prototype.startsWith`. -/
def jsStartsWith (s pre : String) : Bool := charsBeginWith pre.data s.data

/-- `String.prototype.endsWith`. -/
def jsEndsWith (s suf : String) : Bool :=
  charsBeginWith suf.data.reverse s.data.reverse

/-- ASCII digit test (`\d` of the regexes in `browser/index.ts`). -/
def isAsciiDigit (c : Char) : Bool := '0' ≤ c && c ≤ '9'

/-- Length of a match of the regex `-es20\d{2}` at the head of the character
list, if any (the pattern of `filename.replace(/\-es20\d{2}/, '')`). -/
def matchEs20xx : List Char → Option Nat
  | '-' :: 'e' :: 's' :: '2' :: '0' :: d1 :: d2 :: _ =>
    if isAsciiDigit d1 && isAsciiDigit d2 then some 7 else none
  | _ => none

/-- Length of a match of the regex `-(es20\d{2}|esnext)` at the head of the
character list, if any (the pattern of `file.replace(/\-(es20\d{2}|esnext)/, '-es5')`). -/
def matchEs20xxOrEsnext (cs : List Char) : Option Nat :=
  match matchEs20xx cs with
  | some n => some n
  | none =>
    match cs with
    | '-' :: 'e' :: 's' :: 'n' :: 'e' :: 'x' :: 't' :: _ => some 7
    | _ => none

/-- `String.prototype.replace` with a non-global regex: replace the first
(leftmost) match recognised by `matcher` with `repl`. -/
def replaceFirstAux (matcher : List Char → Option Nat) (repl : List Char) :
    List Char → List Char
  | [] => []
  | c :: rest =>
    match matcher (c :: rest) with
    | some n => repl ++ (c :: rest).drop n
    | none => c :: replaceFirstAux matcher repl rest

/-- Does any position of the character list start a match? -/
def hasMatchAux (matcher : List Char → Option Nat) : List Char → Bool
  | [] => false
  | c :: rest => (matcher (c :: rest)).isSome || hasMatchAux matcher rest

/-- `s.replace(/\-es20\d{2}/, '')` — the legacy-polyfill filename strip
(lines 433 and 460 of `browser/index.ts`). -/
def stripEs20xx (s : String) : String :=
  String.mk (replaceFirstAux matchEs20xx [] s.data)

/-- `s.replace(/\-(es20\d{2}|esnext)/, '-es5')` — the ES5 rename used for
worker replacements (line 380) and nomodule filenames (line 461). -/
def toEs5Suffix (s : String) : String :=
  String.mk (replaceFirstAux matchEs20xxOrEsnext ('-' :: 'e' :: 's' :: '5' :: []) s.data)

/-- Does `s` contain a match of `-es20\d{2}`? -/
def hasEs20xxMatch (s : String) : Bool :=
  hasMatchAux matchEs20xx s.data

/-! ## Compiled-output classification (`browser/index.ts` lines 352-463) -/

/-- The options shared by all bundle process actions (`actionOptions`,
lines 358-364). -/
structure ActionOptions where
  optimize : Bool := false
  sourceMaps : Bool := false
  hiddenSourceMaps : Bool := false
  vendorSourceMaps : Bool := false
  integrityAlgorithm : Option String := none
deriving Repr, DecidableEq

/-- `ProcessBundleOptions` (fields used by `buildWebpackBrowser`): the spread
of `actionOptions` plus the per-file fields pushed at lines 440-451, and the
`replacements` added when batching at line 474. -/
structure ProcessBundleOptions where
  filename : String
  code : String
  map : Option String := none
  name : String
  runtime : Bool := false
  ignoreOriginal : Bool := false
  optimizeOnly : Bool := false
  optimize : Bool := false
  sourceMaps : Bool := false
  hiddenSourceMaps : Bool := false
  vendorSourceMaps : Bool := false
  integrityAlgorithm : Option String := none
  replacements : Option (List (String × String)) := none
deriving Repr, DecidableEq

/-- The map record inside a `ProcessBundleFile` (`result.original.map.filename`). -/
structure ProcessBundleMapFile where
  filename : String
  size : Nat := 0
deriving Repr, DecidableEq

/-- `ProcessBundleFile`: one written artifact of a processed bundle. -/
structure ProcessBundleFile where
  filename : String
  size : Nat := 0
  map : Option ProcessBundleMapFile := none
deriving Repr, DecidableEq

/-- `ProcessBundleResult` (fields used by `buildWebpackBrowser`). -/
structure ProcessBundleResult where
  name : String
  integrity : Option String := none
  original : Option ProcessBundleFile := none
  downlevel : Option ProcessBundleFile := none
deriving Repr, DecidableEq

/-- Mutable loop state of the classification loop over `emittedFiles`
(lines 366-369 declare `mainChunkId`, `actions`, `workerReplacements`, `seen`,
and lines 321-323 declare `files`, `moduleFiles`, `noModuleFiles`). `Set`s are
modelled as insertion-ordered duplicate-free lists; a TS `undefined` list and
an empty list are both the empty list. -/
structure ClassifyState where
  mainChunkId : Option String := none
  actions : List ProcessBundleOptions := []
  workerReplacements : Option (List (String × String)) := none
  seen : List String := []
  files : List EmittedFile := []
  moduleFiles : List EmittedFile := []
  noModuleFiles : List EmittedFile := []
deriving Repr, DecidableEq

/-- The pass-through test of lines 388-391:
`file.extension !== '.js' || (file.name && scriptsEntryPointName.includes(file.name))`. -/
def isPassThrough (scriptsEntryPointName : List String) (f : EmittedFile) : Bool :=
  f.extension != ".js" ||
    (jsTruthyOptStr f.name && scriptsEntryPointName.contains (f.name.getD ""))

/-- `path.join(webpackStats.outputPath!, file.file)` (posix). -/
def pathJoin (dir file : String) : String := dir ++ "/" ++ file

/-- `path.basename` (posix). -/
def pathBasename (s : String) : String := ((s.splitOn "/").getLast?).getD s

/-- The vendor/main test of line 405:
`file.name === 'vendor' || (!mainChunkId && file.name === 'main')`. -/
def vendorMainCond (mainChunkId : Option String) (f : EmittedFile) : Bool :=
  f.name == some "vendor" || (jsFalsyOptStr mainChunkId && f.name == some "main")

/-- The `ProcessBundleOptions` action recorded for a deduplicated processable
script (lines 410-451): the `actionOptions` spread plus filename (legacy
polyfills stripped), content, optional map, chunk id, and the runtime /
ignoreOriginal / optimizeOnly flags. -/
def mkAction (ao : ActionOptions) (outputPath : String)
    (read : String → String) (readMap : String → Option String)
    (f : EmittedFile) : ProcessBundleOptions :=
  let filename0 := pathJoin outputPath f.file
  let es5Polyfills := jsStartsWith f.file "polyfills-es5"
  { filename := if es5Polyfills then stripEs20xx filename0 else filename0
    code := read filename0
    map := if ao.sourceMaps then readMap (filename0 ++ ".map") else none
    name := f.id.getD ""
    runtime := jsStartsWith f.file "runtime"
    ignoreOriginal := es5Polyfills
    optimizeOnly := jsStartsWith f.file "polyfills-es20"
    optimize := ao.optimize
    sourceMaps := ao.sourceMaps
    hiddenSourceMaps := ao.hiddenSourceMaps
    vendorSourceMaps := ao.vendorSourceMaps
    integrityAlgorithm := ao.integrityAlgorithm }

/-- One iteration of the classification loop (lines 370-463). Each `continue`
of the source is a branch returning the state accumulated so far. -/
def classifyStep (scriptsEntryPointName : List String) (ao : ActionOptions)
    (outputPath : String) (read : String → String) (readMap : String → Option String)
    (st : ClassifyState) (file : EmittedFile) : ClassifyState :=
  -- Assets are not processed nor injected into the index; WorkerPlugin adds
  -- worker files to assets, which are recorded as replacements and fall through.
  if file.asset && !(jsEndsWith file.file ".worker.js") then st
  else
    let st :=
      if file.asset then
        { st with
          workerReplacements := some
            ((st.workerReplacements.getD []) ++ [(file.file, toEs5Suffix file.file)]) }
      else st
    if isPassThrough scriptsEntryPointName file then
      { st with files := st.files ++ [file] }
    else if st.seen.contains file.file then st
    else
      let st := { st with seen := st.seen ++ [file.file] }
      let st :=
        if vendorMainCond st.mainChunkId file then
          -- `mainChunkId = file.id!.toString()`
          { st with mainChunkId := some (file.id.getD "") }
        else st
      let es5Polyfills := jsStartsWith file.file "polyfills-es5"
      let st :=
        if !es5Polyfills then { st with moduleFiles := st.moduleFiles ++ [file] }
        else st
      let es2015Polyfills := jsStartsWith file.file "polyfills-es20"
      let st := { st with actions := st.actions ++ [mkAction ao outputPath read readMap file] }
      -- ES2015 polyfills are only optimized
      if es2015Polyfills then st
      else
        let newFilename :=
          if es5Polyfills then stripEs20xx file.file else toEs5Suffix file.file
        { st with noModuleFiles := st.noModuleFiles ++ [{ file with file := newFilename }] }

/-- The whole classification loop `for (const file of emittedFiles) { ... }`. -/
def classify (scriptsEntryPointName : List String) (ao : ActionOptions)
    (outputPath : String) (read : String → String) (readMap : String → Option String)
    (emittedFiles : List EmittedFile) : ClassifyState :=
  emittedFiles.foldl (classifyStep scriptsEntryPointName ao outputPath read readMap) {}

/-- Does an emitted file reach the dedup check of line 400 (it is neither a
skipped non-worker asset nor a pass-through file)? -/
def reachesDedup (scriptsEntryPointName : List String) (f : EmittedFile) : Bool :=
  !(f.asset && !(jsEndsWith f.file ".worker.js")) && !(isPassThrough scriptsEntryPointName f)

/-- The subsequence of emitted files that is actually processed into bundle
actions: files reaching the dedup check, first occurrence per path only. -/
def dedupScripts (scriptsEntryPointName : List String) (seen : List String) :
    List EmittedFile → List EmittedFile
  | [] => []
  | f :: rest =>
    if reachesDedup scriptsEntryPointName f then
      if seen.contains f.file then dedupScripts scriptsEntryPointName seen rest
      else f :: dedupScripts scriptsEntryPointName (seen ++ [f.file]) rest
    else dedupScripts scriptsEntryPointName seen rest

/-- The vendor/main assignment replayed over a list of deduplicated scripts. -/
def mainChunkFold (acc : Option String) (l : List EmittedFile) : Option String :=
  l.foldl (fun mci f => if vendorMainCond mci f then some (f.id.getD "") else mci) acc

/-- Main-chunk selection as the spec's words state it (claim C7): the first
deduplicated script named `vendor`, else the first named `main`. -/
def mainChunkIdSpecFirstVendor (scripts : List EmittedFile) : Option String :=
  match scripts.find? (fun f => f.name == some "vendor") with
  | some v => some (v.id.getD "")
  | none => (scripts.find? (fun f => f.name == some "main")).map (fun f => f.id.getD "")

/-- Main-chunk selection as the code computes it: the **last** deduplicated
script named `vendor`, else the first named `main`. -/
def mainChunkIdLastVendor (scripts : List EmittedFile) : Option String :=
  match (scripts.filter (fun f => f.name == some "vendor")).getLast? with
  | some v => some (v.id.getD "")
  | none => (scripts.find? (fun f => f.name == some "main")).map (fun f => f.id.getD "")

/-! ## Process batch and the runtime chunk (`browser/index.ts` lines 465-500) -/

/-- Lines 465-476: one iteration of the partition of the recorded actions into
the batch submitted to `executor.processAll` (with `workerReplacements` spread
in) and the withheld runtime action. An action is withheld iff
`action.integrityAlgorithm && action.runtime`. -/
def splitStep (workerReplacements : Option (List (String × String)))
    (acc : List ProcessBundleOptions × Option ProcessBundleOptions)
    (action : ProcessBundleOptions) :
    List ProcessBundleOptions × Option ProcessBundleOptions :=
  if action.integrityAlgorithm.isSome && action.runtime then (acc.1, some action)
  else (acc.1 ++ [{ action with replacements := workerReplacements }], acc.2)

/-- Lines 465-476 (continued): the whole partition loop. -/
def splitProcessActions (workerReplacements : Option (List (String × String)))
    (actions : List ProcessBundleOptions) :
    List ProcessBundleOptions × Option ProcessBundleOptions :=
  actions.foldl (splitStep workerReplacements) ([], none)

/-- Lines 484-500: drain `executor.processAll(processActions)` into
`processResults` — results arrive in completion order, modelled as a caller-
supplied `completionOrder` (a permutation of the submitted batch) — then, if a
runtime action was withheld, process it with `runtimeData := processResults`
and push its result. `process` is the opaque per-action transform and
`processRuntime` the runtime transform taking the collected results. -/
def runProcessStage (process : ProcessBundleOptions → ProcessBundleResult)
    (processRuntime : ProcessBundleOptions → List ProcessBundleResult → ProcessBundleResult)
    (workerReplacements : Option (List (String × String)))
    (actions : List ProcessBundleOptions)
    (completionOrder : List ProcessBundleOptions) : List ProcessBundleResult :=
  let split := splitProcessActions workerReplacements actions
  let processResults := completionOrder.map process
  match split.2 with
  | some runtimeAction => processResults ++ [processRuntime runtimeAction processResults]
  | none => processResults

/-! ## Inline-action construction (`browser/index.ts` lines 504-544) -/

/-- `InlineOptions` as consumed by `executor.inlineAll`. -/
structure InlineOptions where
  filename : String
  code : String
  map : Option String := none
  outputPath : String
  es5 : Bool
  missingTranslation : Option String := none
  setLocale : Bool
deriving Repr, DecidableEq

/-- `Set.prototype.add` on an insertion-ordered duplicate-free list. -/
def setAdd (l : List String) (s : String) : List String :=
  if l.contains s then l else l ++ [s]

/-- The two pushes of lines 510-543 for one `ProcessBundleResult`: one
`InlineOptions` per present artifact variant (original, then downlevel), each
with `setLocale := result.name === mainChunkId`; both artifact filenames and
their map filenames are added to the processed-file set. -/
def inlineActionsOfResult (read : String → String) (baseOutputPath : String)
    (missingTranslation : Option String) (mainChunkId : Option String)
    (acc : List InlineOptions × List String) (result : ProcessBundleResult) :
    List InlineOptions × List String :=
  let acc :=
    match result.original with
    | some orig =>
      (acc.1 ++ [{ filename := pathBasename orig.filename
                   code := read orig.filename
                   map := orig.map.map (fun m => read m.filename)
                   outputPath := baseOutputPath
                   es5 := false
                   missingTranslation := missingTranslation
                   setLocale := mainChunkId == some result.name }],
       let p := setAdd acc.2 orig.filename
       match orig.map with
       | some m => setAdd p m.filename
       | none => p)
    | none => acc
  match result.downlevel with
  | some dl =>
    (acc.1 ++ [{ filename := pathBasename dl.filename
                 code := read dl.filename
                 map := dl.map.map (fun m => read m.filename)
                 outputPath := baseOutputPath
                 es5 := true
                 missingTranslation := missingTranslation
                 setLocale := mainChunkId == some result.name }],
     let p := setAdd acc.2 dl.filename
     match dl.map with
     | some m => setAdd p m.filename
     | none => p)
  | none => acc

/-- Lines 507-544: build the `inlineActions` list and the `processedFiles` set
from the accumulated `processResults`. -/
def createInlineActions (read : String → String) (baseOutputPath : String)
    (missingTranslation : Option String) (mainChunkId : Option String)
    (processResults : List ProcessBundleResult) : List InlineOptions × List String :=
  processResults.foldl
    (inlineActionsOfResult read baseOutputPath missingTranslation mainChunkId) ([], [])

/-- Number of present artifact variants (original/downlevel) of a result. -/
def variantCount (r : ProcessBundleResult) : Nat :=
  (if r.original.isSome then 1 else 0) + (if r.downlevel.isSome then 1 else 0)

/-! ## Thrown values and the locale-inlining stage
(`browser/index.ts` lines 478-601, 807-817) -/

/-- A JavaScript value as far as `catch` clauses here can observe it: an
`Error` instance (with its `message`), a plain string, or anything else. -/
inductive JsValue where
  | jsError (message : String)
  | jsString (s : String)
  | jsNumber (n : Int)
  | jsUndefined
  | jsObject
deriving Repr, DecidableEq

/-- `mapErrorToMessage` (lines 807-817): an `Error`'s message, a string
itself, and `undefined` for every other thrown value. -/
def mapErrorToMessage : JsValue → Option String
  | .jsError m => some m
  | .jsString s => some s
  | _ => none

/-- The `{ success, error? }` object returned from the build event handler. -/
structure BuilderResult where
  success : Bool
  error : Option String := none
deriving Repr, DecidableEq

/-- One diagnostic of an `InlineResult`; `type` is `'error'` or `'warning'`. -/
structure InlineDiagnostic where
  type : String
  message : String
deriving Repr, DecidableEq

/-- `InlineResult` as consumed at lines 548-564. -/
structure InlineResult where
  file : String
  count : Nat := 0
  diagnostics : List InlineDiagnostic := []
deriving Repr, DecidableEq

/-- Observable events of the differential-loading stage, in program order. -/
inductive StageEvent where
  | processedResult (name : String)
  | runtimeProcessed
  | drewInline (file : String)
  | copyAssets
  | stop
deriving Repr, DecidableEq

/-- How the `try` body of lines 484-598 ends. -/
inductive BodyOutcome where
  | fellThrough
  | returned (r : BuilderResult)
  | threw (e : JsValue)
deriving Repr, DecidableEq

/-- The `for await (const result of executor.inlineAll(inlineActions))` loop of
lines 548-564. The lazy sequence is a list of draws, each yielding an
`InlineResult` or re-raising a failure; each ok draw folds its diagnostics into
`hasErrors` (`diagnostic.type === 'error'` sets it). Returns the drawn-result
events and either the final `hasErrors` or the re-raised value. -/
def drawInlineLoop : List (Except JsValue InlineResult) → Bool →
    List StageEvent × Except JsValue Bool
  | [], hasErrors => ([], Except.ok hasErrors)
  | Except.error e :: _, _ => ([], Except.error e)
  | Except.ok r :: rest, hasErrors =>
    let hasErrors :=
      r.diagnostics.foldl (fun h d => if d.type == "error" then true else h) hasErrors
    let step := drawInlineLoop rest hasErrors
    (StageEvent.drewInline r.file :: step.1, step.2)

/-- Lines 546-597: the inner `try`/`catch` around the inline loop and the
`copyAssets` bulk copy, then the `hasErrors` checks. Returns the emitted
events and `some r` when the handler returns early with `r` (a thrown value is
caught at line 583 and mapped through `mapErrorToMessage`), `none` when it
falls through. -/
def inlineStage (inlineSeq : List (Except JsValue InlineResult))
    (copyOutcome : Except JsValue Unit) : List StageEvent × Option BuilderResult :=
  let drawn := drawInlineLoop inlineSeq false
  match drawn.2 with
  | Except.error e =>
    (drawn.1, some { success := false, error := mapErrorToMessage e })
  | Except.ok hasErrors =>
    match copyOutcome with
    | Except.error e =>
      (drawn.1 ++ [StageEvent.copyAssets],
       some { success := false, error := mapErrorToMessage e })
    | Except.ok _ =>
      if hasErrors then
        (drawn.1 ++ [StageEvent.copyAssets], some { success := false })
      else (drawn.1 ++ [StageEvent.copyAssets], none)

/-- The `for await (const result of executor.processAll(processActions))` loop
of lines 486-488: each draw either yields a result pushed onto
`processResults` or re-raises a failure that propagates out of the loop. -/
def drawProcessLoop : List (Except JsValue ProcessBundleResult) →
    List StageEvent × Except JsValue (List ProcessBundleResult)
  | [] => ([], Except.ok [])
  | Except.error e :: _ => ([], Except.error e)
  | Except.ok r :: rest =>
    let step := drawProcessLoop rest
    (StageEvent.processedResult r.name :: step.1, step.2.map (fun l => r :: l))

/-- The `try` body of lines 484-598: drain the process batch, process the
withheld runtime action (its `import`/`process` call may itself throw), and —
when translations are inlined — run the inline stage. -/
def diffStageBody (processSeq : List (Except JsValue ProcessBundleResult))
    (hasRuntimeAction : Bool) (runtimeOutcome : Except JsValue ProcessBundleResult)
    (shouldInline : Bool) (inlineSeq : List (Except JsValue InlineResult))
    (copyOutcome : Except JsValue Unit) : List StageEvent × BodyOutcome :=
  let drawn := drawProcessLoop processSeq
  match drawn.2 with
  | Except.error e => (drawn.1, BodyOutcome.threw e)
  | Except.ok _ =>
    let runtimeStep : List StageEvent × Option JsValue :=
      if hasRuntimeAction then
        match runtimeOutcome with
        | Except.error e => ([], some e)
        | Except.ok _ => ([StageEvent.runtimeProcessed], none)
      else ([], none)
    match runtimeStep.2 with
    | some e => (drawn.1 ++ runtimeStep.1, BodyOutcome.threw e)
    | none =>
      if shouldInline then
        let inner := inlineStage inlineSeq copyOutcome
        match inner.2 with
        | some r => (drawn.1 ++ runtimeStep.1 ++ inner.1, BodyOutcome.returned r)
        | none => (drawn.1 ++ runtimeStep.1 ++ inner.1, BodyOutcome.fellThrough)
      else (drawn.1 ++ runtimeStep.1, BodyOutcome.fellThrough)

/-- Lines 484-601: the `try { ... } finally { executor.stop(); }` wrapping of
the whole differential-loading stage — whatever the body does (falls through,
returns early, or throws), the `finally` clause runs `executor.stop()` once. -/
def diffStage (processSeq : List (Except JsValue ProcessBundleResult))
    (hasRuntimeAction : Bool) (runtimeOutcome : Except JsValue ProcessBundleResult)
    (shouldInline : Bool) (inlineSeq : List (Except JsValue InlineResult))
    (copyOutcome : Except JsValue Unit) : List StageEvent × BodyOutcome :=
  let body := diffStageBody processSeq hasRuntimeAction runtimeOutcome
    shouldInline inlineSeq copyOutcome
  (body.1 ++ [StageEvent.stop], body.2)

/-! ## Budget checking (`browser/index.ts` lines 653-677, 819-822;
`statsHasErrors` from `angular-cli-files/utilities/stats.ts` lines 131-133) -/

/-- The warnings/errors lists of a child compilation record. -/
structure ChildStats where
  warnings : List String := []
  errors : List String := []
deriving Repr, DecidableEq

/-- The slice of the webpack stats object these lines read and mutate. -/
structure WebpackStatsObj where
  warnings : List String := []
  errors : List String := []
  children : Option (List ChildStats) := none
deriving Repr, DecidableEq

/-- `statsHasErrors` (stats.ts lines 131-133):
`json.errors.length || !!json.children?.some(c => c.errors.length)`. -/
def statsHasErrors (json : WebpackStatsObj) : Bool :=
  json.errors.length != 0 ||
    (match json.children with
     | some cs => cs.any (fun c => c.errors.length != 0)
     | none => false)

/-- One budget failure as yielded by `checkBudgets`. Modelled from the spec:
`ThresholdSeverity` is declared in `../utils/bundle-calculator`, which is not
under `src/`; per the spec its severity values are `warning` and `error`
(BudgetBreach: severity ∈ \x7bwarning, error\x7d), modelled here by the
enum's runtime string value so that the `default:` branch of the `switch` can
be exercised by any other value. -/
structure BudgetFailure where
  severity : String
  message : String
deriving Repr, DecidableEq

/-- `JSON.stringify` of a plain string without special characters, as used in
`assertNever`'s message for an enum value. -/
def jsonStringifyString (s : String) : String := "\"" ++ s ++ "\""

/-- The message of the `Error` thrown by `assertNever` (lines 819-822). -/
def assertNeverMessage (input : String) : String :=
  "Unexpected call to assertNever() with input: " ++ jsonStringifyString input

/-- The `switch (severity)` body of lines 656-667 for one budget failure:
warnings get `budgets: <message>` appended for `warning`, errors for `error`,
and any other severity reaches `default: assertNever(severity)`, which throws
before recording anything. -/
def applyBudgetFailure (stats : WebpackStatsObj) (f : BudgetFailure) :
    Except String WebpackStatsObj :=
  let msg := "budgets: " ++ f.message
  if f.severity = "warning" then
    Except.ok { stats with warnings := stats.warnings ++ [msg] }
  else if f.severity = "error" then
    Except.ok { stats with errors := stats.errors ++ [msg] }
  else Except.error (assertNeverMessage f.severity)

/-- The `for (const { severity, message } of budgetFailures)` loop. -/
def applyBudgetFailures (stats : WebpackStatsObj) :
    List BudgetFailure → Except String WebpackStatsObj
  | [] => Except.ok stats
  | f :: fs =>
    match applyBudgetFailure stats f with
    | Except.ok stats' => applyBudgetFailures stats' fs
    | Except.error e => Except.error e

/-- Lines 653-677: apply all budget failures, then
`if (statsHasErrors(webpackStats)) return { success: false }` — `some r` is an
early `return r`, `none` falls through to the success path. -/
def budgetStageResult (stats : WebpackStatsObj) (budgetFailures : List BudgetFailure) :
    Except String (Option BuilderResult) :=
  (applyBudgetFailures stats budgetFailures).map
    (fun stats' => if statsHasErrors stats' then some { success := false } else none)

/-! ## `CommonJsUsageWarnPlugin`
(`angular-cli-files/plugins/common-js-usage-warn-plugin.ts`) -/

/-- The `instanceof` class of a webpack dependency as tested by
`hasCommonJsDependencies`. -/
inductive DepKind where
  | commonJsRequire
  | amdDefine
  | otherDep
deriving Repr, DecidableEq

/-- A webpack module as the plugin reads it (`WebpackModule`): `name?`,
`rawRequest?`, `userRequest?`, `dependencies` (each dependency with its class
and optional resolved `module`), and the `issuer` chain. -/
inductive WPModule where
  | mk (name : Option String) (rawRequest : Option String) (userRequest : Option String)
      (dependencies : List (DepKind × Option WPModule)) (issuer : Option WPModule)

/-- Module name (`name?`). -/
def WPModule.name : WPModule → Option String
  | .mk n _ _ _ _ => n

/-- Module raw request (`rawRequest?`). -/
def WPModule.rawRequest : WPModule → Option String
  | .mk _ r _ _ _ => r

/-- Module user request (`userRequest?`). -/
def WPModule.userRequest : WPModule → Option String
  | .mk _ _ u _ _ => u

/-- Module dependency list. -/
def WPModule.dependencies : WPModule → List (DepKind × Option WPModule)
  | .mk _ _ _ d _ => d

/-- Module issuer (`issuer`). -/
def WPModule.issuer : WPModule → Option WPModule
  | .mk _ _ _ _ i => i

/-- `hasCommonJsDependencies(dependencies)` with `checkParentModules` left at
its default `false` (lines 103-115): any dependency is a
`CommonJsRequireDependency` or `AMDDefineDependency`. -/
def hasCJSDepsShallow : List (DepKind × Option WPModule) → Bool
  | [] => false
  | (k, _) :: rest =>
    (k == DepKind.commonJsRequire || k == DepKind.amdDefine) || hasCJSDepsShallow rest

/-- `hasCommonJsDependencies(dependencies, true)` (lines 103-115): as above,
but additionally `dep.module && hasCommonJsDependencies(dep.module.dependencies)`
— one level of recursion into each dependency's resolved module, with
`checkParentModules` false there. -/
def hasCJSDepsWithParents : List (DepKind × Option WPModule) → Bool
  | [] => false
  | (k, m) :: rest =>
    (k == DepKind.commonJsRequire || k == DepKind.amdDefine) ||
      (match m with
       | some mm => hasCJSDepsShallow mm.dependencies
       | none => false) ||
      hasCJSDepsWithParents rest

/-- The `while (mainIssuer?.issuer) mainIssuer = mainIssuer.issuer` walk
(lines 78-81), starting from a module already known to exist. -/
def climbIssuers : WPModule → WPModule
  | .mk n r u d none => .mk n r u d none
  | .mk _ _ _ _ (some i) => climbIssuers i

/-- `path.isAbsolute` for posix paths (the node builtin used at line 53). -/
def isAbsolutePath (s : String) : Bool := jsStartsWith s "/"

/-- `rawRequestToPackageName` (lines 117-123): `@scope/name` for scoped
requests, the first path segment otherwise (`split` with a limit, `join`). -/
def rawRequestToPackageName (rawRequest : String) : String :=
  if jsStartsWith rawRequest "@" then
    String.intercalate "/" ((rawRequest.splitOn "/").take 2)
  else String.intercalate "/" ((rawRequest.splitOn "/").take 1)

/-- The base allowed-dependency set (line 40) extended with
`options.allowedDepedencies` by the constructor (lines 42-44). -/
def mkAllowedDepedencies (optionsAllowed : Option (List String)) : List String :=
  (optionsAllowed.getD []).foldl setAdd ["webpack/hot/dev-server"]

/-- The per-module body of the `finishModules` tap (lines 49-98), up to but not
including the dedup against `shownWarnings`: `some w` when the module would
produce the warning `w`, `none` when one of the skip conditions applies. -/
def moduleWarning (allowedDepedencies : List String) (m : WPModule) : Option String :=
  if jsFalsyOptStr m.rawRequest then none
  else
    let rr := m.rawRequest.getD ""
    if jsStartsWith rr "." || isAbsolutePath rr ||
        allowedDepedencies.contains rr ||
        allowedDepedencies.contains (rawRequestToPackageName rr) ||
        jsStartsWith rr "@angular/common/locales/" then none
    else if hasCJSDepsShallow m.dependencies then
      -- Check if its parent issuer is also a CommonJS dependency.
      let parentDependencies := (m.issuer.bind WPModule.issuer).map WPModule.dependencies
      if (match parentDependencies with
          | some pd => hasCJSDepsWithParents pd
          | none => false) then none
      else
        let mainIssuer := m.issuer.map climbIssuers
        -- Only warn for modules from the main entrypoint whose issuer is not
        -- webpack-dev-server machinery.
        if mainIssuer.bind WPModule.name == some "main" &&
            !(match m.issuer.bind WPModule.userRequest with
              | some u => jsIncludes u "webpack-dev-server"
              | none => false) then
          some (jsTemplateStr (m.issuer.bind WPModule.userRequest) ++
            " depends on '" ++ rr ++ "'. " ++
            "CommonJS or AMD dependencies can cause optimization bailouts.\n" ++
            "For more info see: https://angular.io/guide/build#configuring-commonjs-dependencies")
        else none
    else none

/-- Lines 86-96 for one module: if the module produces a warning not yet in
the instance's `shownWarnings` set, add it to the compilation's warnings and
record it in the set. State is `(shownWarnings, warnings added so far)`. -/
def processModule (allowedDepedencies : List String)
    (st : List String × List String) (m : WPModule) : List String × List String :=
  match moduleWarning allowedDepedencies m with
  | none => st
  | some w => if st.1.contains w then st else (st.1 ++ [w], st.2 ++ [w])

/-- One `finishModules` tap invocation: fold the loop over the compilation's
modules, starting from the instance's current `shownWarnings`; returns the
updated set and the warnings added to this compilation. -/
def processCompilation (allowedDepedencies : List String) (shownWarnings : List String)
    (modules : List WPModule) : List String × List String :=
  modules.foldl (processModule allowedDepedencies) (shownWarnings, [])

/-- A watch session: the same plugin instance processes a sequence of
compilations; `shownWarnings` persists across them (it is instance state,
initialised once at line 35 and never cleared). Returns the final set and the
per-compilation added-warning lists. -/
def runCompilations (allowedDepedencies : List String) (shownWarnings : List String) :
    List (List WPModule) → List String × List (List String)
  | [] => (shownWarnings, [])
  | c :: cs =>
    let step := processCompilation allowedDepedencies shownWarnings c
    let rest := runCompilations allowedDepedencies step.1 cs
    (rest.1, step.2 :: rest.2)

/-- Does an `InlineResult` carry an error-severity diagnostic? -/
def hasErrorDiag (r : InlineResult) : Bool :=
  r.diagnostics.any (fun d => d.type == "error")

/-- Concrete `InlineResult` with one error diagnostic, used as test input. -/
def sampleErrorResult : InlineResult :=
  { file := "main-es2015.js", count := 0,
    diagnostics := [{ type := "error", message := "boom" }] }

/-- Concrete transform used in witnesses: a result carrying the action's id. -/
def procNameOnly (a : ProcessBundleOptions) : ProcessBundleResult :=
  { name := a.name }

/-- Concrete runtime transform used in witnesses. -/
def procRuntimeNameOnly (a : ProcessBundleOptions)
    (_results : List ProcessBundleResult) : ProcessBundleResult :=
  { name := a.name }

/-- A runtime-chunk action with subresource integrity enabled. -/
def runtimeActionSRI : ProcessBundleOptions :=
  { filename := "dist/runtime-es2015.js", code := "", name := "r", runtime := true,
    integrityAlgorithm := some "sha384" }

/-- A main-chunk action with subresource integrity enabled. -/
def mainActionSRI : ProcessBundleOptions :=
  { filename := "dist/main-es2015.js", code := "", name := "0",
    integrityAlgorithm := some "sha384" }

/-- A runtime-chunk action without subresource integrity. -/
def runtimeActionNoSRI : ProcessBundleOptions :=
  { filename := "dist/runtime-es2015.js", code := "", name := "r", runtime := true }

/-- A main-chunk action without subresource integrity. -/
def mainActionNoSRI : ProcessBundleOptions :=
  { filename := "dist/main-es2015.js", code := "", name := "0" }

/-- A main-chunk result carrying both an original and a downlevel artifact,
as every differentially-loaded bundle does. -/
def mainResultBothVariants : ProcessBundleResult :=
  { name := "0", original := some { filename := "dist/main-es2015.js" },
    downlevel := some { filename := "dist/main-es5.js" } }

/-- A plain stylesheet emitted file (pass-through, not a script). -/
def cssEmittedFile : EmittedFile :=
  { id := some "3", name := some "styles", file := "styles.css", extension := ".css" }

/-- A worker-script asset emitted file. -/
def workerEmittedFile : EmittedFile :=
  { id := some "9", name := none, file := "0-es2015.worker.js", extension := ".js",
    asset := true }

/-- A first emitted vendor-named script. -/
def vendorFileA : EmittedFile :=
  { id := some "1", name := some "vendor", file := "vendor-a-es2015.js", extension := ".js" }

/-- A second emitted vendor-named script with a different path and id. -/
def vendorFileB : EmittedFile :=
  { id := some "2", name := some "vendor", file := "vendor-b-es2015.js", extension := ".js" }

/-- An emitted main-named script. -/
def mainFileM : EmittedFile :=
  { id := some "0", name := some "main", file := "main-es2015.js", extension := ".js" }

/-! ## Theorems -/

theorem drawProcessLoop_no_stop (seq : List (Except JsValue ProcessBundleResult)) :
    (drawProcessLoop seq).1.count StageEvent.stop = 0 := by
  induction seq with
  | nil => simp [drawProcessLoop]
  | cons h rest ih =>
    cases h with
    | error e => simp [drawProcessLoop]
    | ok r => simp [drawProcessLoop, List.count_cons, ih]

theorem drawInlineLoop_no_stop (seq : List (Except JsValue InlineResult)) (h : Bool) :
    (drawInlineLoop seq h).1.count StageEvent.stop = 0 := by
  induction seq generalizing h with
  | nil => simp [drawInlineLoop]
  | cons hd rest ih =>
    cases hd with
    | error e => simp [drawInlineLoop]
    | ok r => simp [drawInlineLoop, List.count_cons, ih]

theorem inlineStage_no_stop (seq : List (Except JsValue InlineResult))
    (copy : Except JsValue Unit) :
    (inlineStage seq copy).1.count StageEvent.stop = 0 := by
  unfold inlineStage
  rcases hdraw : (drawInlineLoop seq false).2 with e | hasErrors
  · simpa [hdraw] using drawInlineLoop_no_stop seq false
  · rcases copy with e | u
    · simp [hdraw, List.count_append, drawInlineLoop_no_stop]
    · by_cases he : hasErrors <;>
        simp [hdraw, he, List.count_append, drawInlineLoop_no_stop]

/-- C3: on every execution path through the differential-loading stage,
`executor.stop()` is invoked exactly once. -/
theorem executor_stop_exactly_once
    (processSeq : List (Except JsValue ProcessBundleResult))
    (hasRuntimeAction : Bool) (runtimeOutcome : Except JsValue ProcessBundleResult)
    (shouldInline : Bool) (inlineSeq : List (Except JsValue InlineResult))
    (copyOutcome : Except JsValue Unit) :
    (diffStage processSeq hasRuntimeAction runtimeOutcome shouldInline inlineSeq
      copyOutcome).1.count StageEvent.stop = 1 := by
  unfold diffStage diffStageBody
  rcases hdraw : (drawProcessLoop processSeq).2 with e | results
  · simp [List.count_append, hdraw]
    simpa [hdraw] using drawProcessLoop_no_stop processSeq
  · have hp := drawProcessLoop_no_stop processSeq
    rcases hasRuntimeAction with _ | _
    · by_cases hsi : shouldInline
      · rcases hinner : (inlineStage inlineSeq copyOutcome).2 with _ | r <;>
          simp [hdraw, hsi, hinner, List.count_append, hp, inlineStage_no_stop]
      · simp [hdraw, hsi, List.count_append, hp]
    · rcases runtimeOutcome with e | r
      · simp [hdraw, List.count_append, hp]
      · by_cases hsi : shouldInline
        · rcases hinner : (inlineStage inlineSeq copyOutcome).2 with _ | r2 <;>
            simp [hdraw, hsi, hinner, List.count_append, hp, inlineStage_no_stop]
        · simp [hdraw, hsi, List.count_append, hp]

theorem foldl_if_or {α : Type} (p : α → Bool) (l : List α) (h : Bool) :
    l.foldl (fun acc x => if p x then true else acc) h = (h || l.any p) := by
  induction l generalizing h with
  | nil => simp
  | cons x xs ih =>
    rw [List.foldl_cons, ih, List.any_cons]
    by_cases hx : p x <;> simp [hx]

theorem drawInlineLoop_all_ok (results : List InlineResult) (h : Bool) :
    drawInlineLoop (results.map Except.ok) h
      = (results.map (fun r => StageEvent.drewInline r.file),
         Except.ok (h || results.any hasErrorDiag)) := by
  induction results generalizing h with
  | nil => simp [drawInlineLoop]
  | cons r rest ih =>
    simp only [List.map_cons, drawInlineLoop]
    rw [foldl_if_or (fun d => d.type == "error") r.diagnostics h, ih]
    simp [hasErrorDiag, Bool.or_assoc]

theorem drawInlineLoop_throws (pre : List InlineResult) (e : JsValue)
    (rest : List (Except JsValue InlineResult)) (h : Bool) :
    drawInlineLoop (pre.map Except.ok ++ Except.error e :: rest) h
      = (pre.map (fun r => StageEvent.drewInline r.file), Except.error e) := by
  induction pre generalizing h with
  | nil => simp [drawInlineLoop]
  | cons r rs ih => simp [drawInlineLoop, ih]

/-- C9 (amended): when the locale-inlining stage terminates with a thrown
value — whether a draw of the inline sequence re-raises it or the bulk copy
throws — the stage returns `{ success: false, error: mapErrorToMessage(err) }`:
the `Error` message, the string itself, or `undefined` otherwise. -/
theorem inline_throw_result (pre results : List InlineResult) (e : JsValue)
    (rest : List (Except JsValue InlineResult)) (copy : Except JsValue Unit) :
    (inlineStage (pre.map Except.ok ++ Except.error e :: rest) copy).2
        = some { success := false, error := mapErrorToMessage e } ∧
    (inlineStage (results.map Except.ok) (Except.error e)).2
        = some { success := false, error := mapErrorToMessage e } := by
  constructor
  · simp [inlineStage, drawInlineLoop_throws]
  · simp [inlineStage, drawInlineLoop_all_ok]

/-- C9 counterexample: a thrown value that is neither an `Error` nor a string
(here the number `42`) yields `error: undefined`, not a defined message. -/
theorem inline_throw_result_cx :
    (inlineStage [Except.error (JsValue.jsNumber 42)] (Except.ok ())).2
        = some { success := false, error := none } ∧
    mapErrorToMessage (JsValue.jsNumber 42) = none := by
  exact ⟨rfl, rfl⟩

/-- C4 (amended): if any drawn `InlineResult` carries an error diagnostic then
the stage returns a result with `success = false`; when no draw of the inline
sequence re-raises a failure, this happens only after every result has been
consumed and the bulk copy pass has run. -/
theorem inline_error_diag_fails_late (results : List InlineResult)
    (copy : Except JsValue Unit) (h : results.any hasErrorDiag = true) :
    (∃ r, (inlineStage (results.map Except.ok) copy).2 = some r ∧ r.success = false) ∧
    (inlineStage (results.map Except.ok) copy).1
      = results.map (fun r => StageEvent.drewInline r.file) ++ [StageEvent.copyAssets] := by
  rcases copy with e | u
  · refine ⟨⟨{ success := false, error := mapErrorToMessage e }, ?_, rfl⟩, ?_⟩
    · simp [inlineStage, drawInlineLoop_all_ok]
    · simp [inlineStage, drawInlineLoop_all_ok]
  · refine ⟨⟨{ success := false, error := none }, ?_, rfl⟩, ?_⟩
    · simp [inlineStage, drawInlineLoop_all_ok, h]
    · simp [inlineStage, drawInlineLoop_all_ok, h]

/-- Witness for `inline_error_diag_fails_late` at a concrete input. -/
theorem inline_error_diag_fails_late_witness :
    ([sampleErrorResult].any hasErrorDiag = true) ∧
    ((∃ r, (inlineStage [Except.ok sampleErrorResult] (Except.ok ())).2
           = some r ∧ r.success = false) ∧
     (inlineStage [Except.ok sampleErrorResult] (Except.ok ())).1
       = [StageEvent.drewInline "main-es2015.js", StageEvent.copyAssets]) := by
  refine ⟨by decide, ?_⟩
  have := inline_error_diag_fails_late [sampleErrorResult] (Except.ok ()) (by decide)
  simpa [sampleErrorResult] using this

/-- C4 counterexample: with an error-diagnostic result followed by a draw that
re-raises a thrown value, the stage returns `success = false` without the bulk
copy pass ever running — the claim's "only after ... the bulk copy pass has
run" does not hold on every path. -/
theorem inline_error_diag_fails_late_cx :
    inlineStage [Except.ok sampleErrorResult, Except.error (JsValue.jsNumber 1)]
        (Except.ok ())
      = ([StageEvent.drewInline "main-es2015.js"],
         some { success := false, error := none }) := by
  rfl

theorem applyBudgetFailures_errors_prefix (fs : List BudgetFailure)
    (stats stats' : WebpackStatsObj)
    (h : applyBudgetFailures stats fs = Except.ok stats') :
    ∃ extra, stats'.errors = stats.errors ++ extra := by
  induction fs generalizing stats with
  | nil =>
    simp [applyBudgetFailures] at h
    exact ⟨[], by simp [h]⟩
  | cons g gs ih =>
    unfold applyBudgetFailures at h
    rcases hg : applyBudgetFailure stats g with e | stats1
    · rw [hg] at h; cases h
    · rw [hg] at h
      obtain ⟨extra, hx⟩ := ih stats1 h
      unfold applyBudgetFailure at hg
      by_cases hw : g.severity = "warning"
      · simp only [hw, if_pos rfl] at hg
        cases hg
        exact ⟨extra, by simpa using hx⟩
      · by_cases he : g.severity = "error"
        · simp only [hw, he, if_neg, if_pos rfl, ite_true, ite_false] at hg
          cases hg
          exact ⟨("budgets: " ++ g.message) :: extra, by simpa [List.append_assoc] using hx⟩
        · simp [hw, he] at hg

theorem applyBudgetFailures_error_mem (fs : List BudgetFailure)
    (stats stats' : WebpackStatsObj) (f : BudgetFailure)
    (hmem : f ∈ fs) (hsev : f.severity = "error")
    (h : applyBudgetFailures stats fs = Except.ok stats') :
    ("budgets: " ++ f.message) ∈ stats'.errors := by
  induction fs generalizing stats with
  | nil => cases hmem
  | cons g gs ih =>
    unfold applyBudgetFailures at h
    rcases hg : applyBudgetFailure stats g with e | stats1
    · rw [hg] at h; cases h
    · rw [hg] at h
      rcases List.mem_cons.mp hmem with heq | htail
      · subst heq
        unfold applyBudgetFailure at hg
        simp only [hsev] at hg
        have hne : f.severity ≠ "warning" := by rw [hsev]; decide
        simp only [hne, if_neg, ite_false, if_pos rfl, ite_true] at hg
        obtain ⟨extra, hx⟩ := applyBudgetFailures_errors_prefix gs stats1 stats' h
        cases hg
        rw [hx]
        simp
      · exact ih stats1 htail h

/-- C5: for every budget failure, severity `warning` appends
`budgets: <message>` to the compilation's warnings only; severity `error`
appends to the errors list and makes the build return `{ success: false }`;
any other severity value throws the `assertNever` internal error and records
no budget message. -/
theorem budget_severity_handling (stats : WebpackStatsObj) (f : BudgetFailure)
    (fs : List BudgetFailure) :
    (f.severity = "warning" →
      applyBudgetFailure stats f
        = Except.ok { stats with warnings := stats.warnings ++ ["budgets: " ++ f.message] }) ∧
    (f.severity = "error" →
      applyBudgetFailure stats f
        = Except.ok { stats with errors := stats.errors ++ ["budgets: " ++ f.message] } ∧
      (f ∈ fs → ∀ res, budgetStageResult stats fs = Except.ok res →
        res = some { success := false, error := none })) ∧
    (f.severity ≠ "warning" → f.severity ≠ "error" →
      applyBudgetFailure stats f = Except.error (assertNeverMessage f.severity)) := by
  refine ⟨?_, ?_, ?_⟩
  · intro hw
    simp [applyBudgetFailure, hw]
  · intro he
    have hne : f.severity ≠ "warning" := by rw [he]; decide
    refine ⟨by simp [applyBudgetFailure, he, hne], ?_⟩
    intro hmem res hres
    unfold budgetStageResult at hres
    rcases happ : applyBudgetFailures stats fs with e | stats'
    · rw [happ] at hres; cases hres
    · rw [happ] at hres
      have hmemerr := applyBudgetFailures_error_mem fs stats stats' f hmem he happ
      have herr : statsHasErrors stats' = true := by
        have : stats'.errors ≠ [] := by
          intro hnil; rw [hnil] at hmemerr; cases hmemerr
        simp only [statsHasErrors, bne_iff_ne, ne_eq, List.length_eq_zero, Bool.or_eq_true,
          decide_eq_true_eq]
        exact Or.inl this
      simp only [Except.map, herr, if_pos rfl, ite_true] at hres
      cases hres
      rfl
  · intro hw he
    simp [applyBudgetFailure, hw, he]

/-- Witness for `budget_severity_handling` at concrete inputs: one warning
failure, one error failure (which fails the build), one unknown severity. -/
theorem budget_severity_handling_witness :
    (applyBudgetFailure {} { severity := "warning", message := "too big" }
      = Except.ok { warnings := ["budgets: too big"], errors := [], children := none }) ∧
    (applyBudgetFailure {} { severity := "error", message := "too big" }
      = Except.ok { warnings := [], errors := ["budgets: too big"], children := none }) ∧
    (budgetStageResult {} [{ severity := "error", message := "too big" }]
      = Except.ok (some { success := false, error := none })) ∧
    (applyBudgetFailure {} { severity := "info", message := "too big" }
      = Except.error (assertNeverMessage "info")) := by
  refine ⟨?_, ?_, ?_, ?_⟩
  · exact (budget_severity_handling {} { severity := "warning", message := "too big" } []).1 rfl
  · exact ((budget_severity_handling {} { severity := "error", message := "too big" } []).2.1 rfl).1
  · have h := ((budget_severity_handling {} { severity := "error", message := "too big" }
      [{ severity := "error", message := "too big" }]).2.1 rfl).2 (by simp)
    have hres : budgetStageResult {} [{ severity := "error", message := "too big" }]
        = Except.ok (some { success := false, error := none }) := by rfl
    rw [hres, h (some { success := false, error := none }) hres]
  · exact (budget_severity_handling {} { severity := "info", message := "too big" } []).2.2
      (by decide) (by decide)

theorem processModule_fold_delta (allowed : List String) (mods : List WPModule)
    (s0 a0 : List String) :
    ∃ d, mods.foldl (processModule allowed) (s0, a0) = (s0 ++ d, a0 ++ d) ∧
      d.Nodup ∧ ∀ x ∈ d, x ∉ s0 := by
  induction mods generalizing s0 a0 with
  | nil => exact ⟨[], by simp⟩
  | cons m rest ih =>
    rw [List.foldl_cons]
    rcases hw : moduleWarning allowed m with _ | w
    · simpa [processModule, hw] using ih s0 a0
    · by_cases hc : w ∈ s0
      · have hstep : processModule allowed (s0, a0) m = (s0, a0) := by
          simp [processModule, hw, hc]
        rw [hstep]
        exact ih s0 a0
      · have hstep : processModule allowed (s0, a0) m = (s0 ++ [w], a0 ++ [w]) := by
          simp [processModule, hw, hc]
        rw [hstep]
        obtain ⟨d, hd, hnd, hnotin⟩ := ih (s0 ++ [w]) (a0 ++ [w])
        refine ⟨w :: d, ?_, ?_, ?_⟩
        · rw [hd]; simp
        · refine List.nodup_cons.mpr ⟨?_, hnd⟩
          intro hwd
          exact hnotin w hwd (by simp)
        · intro x hx
          rcases hx with _ | hx'
          · exact hc
          · intro hxs
            exact hnotin x (by assumption) (by simp [hxs])

theorem processCompilation_delta (allowed : List String) (shown : List String)
    (mods : List WPModule) :
    ∃ d, processCompilation allowed shown mods = (shown ++ d, d) ∧
      d.Nodup ∧ ∀ x ∈ d, x ∉ shown := by
  obtain ⟨d, hd, hnd, hni⟩ := processModule_fold_delta allowed mods shown []
  exact ⟨d, by simpa [processCompilation] using hd, hnd, hni⟩

theorem runCompilations_count (allowed : List String) (comps : List (List WPModule))
    (shown : List String) (w : String) :
    (if w ∈ shown then ((runCompilations allowed shown comps).2.flatten).count w = 0
     else ((runCompilations allowed shown comps).2.flatten).count w ≤ 1) := by
  induction comps generalizing shown with
  | nil => by_cases h : w ∈ shown <;> simp [runCompilations, h]
  | cons c cs ih =>
    obtain ⟨d, hd, hnd, hni⟩ := processCompilation_delta allowed shown c
    have hrun : (runCompilations allowed shown (c :: cs)).2
        = d :: (runCompilations allowed (shown ++ d) cs).2 := by
      simp [runCompilations, hd]
    rw [hrun]
    have ihd := ih (shown ++ d)
    by_cases hs : w ∈ shown
    · have hwd : w ∉ d := fun hwd => hni w hwd hs
      have h1 : d.count w = 0 := List.count_eq_zero.mpr hwd
      have h2 : w ∈ shown ++ d := List.mem_append.mpr (Or.inl hs)
      simp only [h2, if_pos, ite_true] at ihd
      simp [hs, List.count_append, h1, ihd]
    · by_cases hwd : w ∈ d
      · have h1 : d.count w = 1 := List.count_eq_one_of_mem hnd hwd
        have h2 : w ∈ shown ++ d := List.mem_append.mpr (Or.inr hwd)
        simp only [h2, if_pos, ite_true] at ihd
        simp [hs, List.count_append, h1, ihd]
      · have h1 : d.count w = 0 := List.count_eq_zero.mpr hwd
        have h2 : w ∉ shown ++ d := by
          intro hmem
          rcases List.mem_append.mp hmem with h | h
          · exact hs h
          · exact hwd h
        simp only [h2, if_neg, ite_false] at ihd
        simpa [hs, List.count_append, h1] using ihd

/-- C10: over a whole watch session of a single `CommonJsUsageWarnPlugin`
instance, each distinct warning message is added to some compilation's
warnings at most once — the dedup set persists across compilations and is
never reset. -/
theorem commonjs_warning_shown_at_most_once (allowedOpts : Option (List String))
    (comps : List (List WPModule)) (w : String) :
    ((runCompilations (mkAllowedDepedencies allowedOpts) [] comps).2.flatten).count w ≤ 1 := by
  have h := runCompilations_count (mkAllowedDepedencies allowedOpts) comps [] w
  simpa using h

theorem replaceFirst_of_no_match (matcher : List Char → Option Nat) (repl : List Char)
    (l : List Char) (h : hasMatchAux matcher l = false) :
    replaceFirstAux matcher repl l = l := by
  induction l with
  | nil => rfl
  | cons c rest ih =>
    simp only [hasMatchAux, Bool.or_eq_false_iff] at h
    have hm : matcher (c :: rest) = none := by
      cases hmc : matcher (c :: rest) with
      | none => rfl
      | some n => rw [hmc] at h; simp at h
    simp [replaceFirstAux, hm, ih h.2]

theorem stripEs20xx_of_no_match (s : String) (h : hasEs20xxMatch s = false) :
    stripEs20xx s = s := by
  unfold stripEs20xx
  unfold hasEs20xxMatch at h
  rw [replaceFirst_of_no_match matchEs20xx [] s.data h]

/-- C8 (amended): the `-es20xx` suffix strip is idempotent on every filename
whose stripped form contains no further `-es20\d{2}` occurrence — in
particular on already-renamed legacy polyfill names, which never produce a
doubly-stripped or doubly-suffixed name. -/
theorem stripEs20xx_idempotent_after (s : String)
    (h : hasEs20xxMatch (stripEs20xx s) = false) :
    stripEs20xx (stripEs20xx s) = stripEs20xx s :=
  stripEs20xx_of_no_match (stripEs20xx s) h

/-- Witness for `stripEs20xx_idempotent_after`: an already-renamed legacy
polyfill filename. -/
theorem stripEs20xx_idempotent_after_witness :
    hasEs20xxMatch (stripEs20xx "polyfills-es5.abc123.js") = false ∧
    stripEs20xx (stripEs20xx "polyfills-es5.abc123.js")
      = stripEs20xx "polyfills-es5.abc123.js" :=
  ⟨by decide, stripEs20xx_idempotent_after "polyfills-es5.abc123.js" (by decide)⟩

/-- C8 counterexample: on a filename with two `-es20\d{2}` occurrences the
strip is not idempotent — the second application removes the second
occurrence. -/
theorem stripEs20xx_idempotent_cx :
    stripEs20xx "polyfills-es5-es2015-es2015.js" = "polyfills-es5-es2015.js" ∧
    stripEs20xx (stripEs20xx "polyfills-es5-es2015-es2015.js")
      = "polyfills-es5.js" ∧
    stripEs20xx (stripEs20xx "polyfills-es5-es2015-es2015.js")
      ≠ stripEs20xx "polyfills-es5-es2015-es2015.js" := by
  refine ⟨by decide, by decide, by decide⟩

theorem splitProcessActions_foldl (w : Option (List (String × String)))
    (l : List ProcessBundleOptions)
    (acc : List ProcessBundleOptions × Option ProcessBundleOptions) :
    l.foldl (splitStep w) acc
      = (acc.1 ++ (l.filter
            (fun a => !(a.integrityAlgorithm.isSome && a.runtime))).map
            (fun a => { a with replacements := w }),
         match (l.filter (fun a => a.integrityAlgorithm.isSome && a.runtime)).getLast? with
         | some x => some x
         | none => acc.2) := by
  induction l generalizing acc with
  | nil => simp
  | cons a rest ih =>
    by_cases ha : a.integrityAlgorithm.isSome && a.runtime
    · rw [List.foldl_cons, show splitStep w acc a = (acc.1, some a) from by simp [splitStep, ha]]
      rw [ih]
      rw [List.filter_cons_of_neg (by simp [ha]), List.filter_cons_of_pos (by simp [ha])]
      cases hfr : (rest.filter (fun a => a.integrityAlgorithm.isSome && a.runtime)) with
      | nil => simp [hfr]
      | cons y ys =>
        simp only [hfr, List.getLast?_cons_cons]
        cases hg : (y :: ys).getLast? with
        | none => exact absurd (List.getLast?_eq_none_iff.mp hg) (by simp)
        | some x => rfl
    · rw [List.foldl_cons, show splitStep w acc a
          = (acc.1 ++ [{ a with replacements := w }], acc.2) from by simp [splitStep, ha]]
      rw [ih]
      rw [List.filter_cons_of_pos (by simp [ha]), List.filter_cons_of_neg (by simp [ha])]
      simp

theorem splitProcessActions_fst (w : Option (List (String × String)))
    (actions : List ProcessBundleOptions) :
    (splitProcessActions w actions).1
      = (actions.filter
          (fun a => !(a.integrityAlgorithm.isSome && a.runtime))).map
          (fun a => { a with replacements := w }) := by
  unfold splitProcessActions
  rw [splitProcessActions_foldl w actions ([], none)]
  simp

theorem splitProcessActions_snd (w : Option (List (String × String)))
    (actions : List ProcessBundleOptions) :
    (splitProcessActions w actions).2
      = (actions.filter (fun a => a.integrityAlgorithm.isSome && a.runtime)).getLast? := by
  unfold splitProcessActions
  rw [splitProcessActions_foldl w actions ([], none)]
  cases hfr : (actions.filter (fun a => a.integrityAlgorithm.isSome && a.runtime)).getLast? <;>
    simp [hfr]

/-- C1 (amended): in a differential-loading build **with subresource integrity
enabled** (every recorded action carries an integrity algorithm) that has a
runtime action, the runtime action is withheld from the batch and its result
is produced from the collected batch results and appended strictly after
every non-runtime result, as the last element of `processResults` — for every
completion order of the batch. -/
theorem runtime_result_appended_last
    (process : ProcessBundleOptions → ProcessBundleResult)
    (processRuntime : ProcessBundleOptions → List ProcessBundleResult → ProcessBundleResult)
    (w : Option (List (String × String))) (actions : List ProcessBundleOptions)
    (completionOrder : List ProcessBundleOptions)
    (hsri : ∀ a ∈ actions, a.integrityAlgorithm.isSome = true)
    (hrt : ∃ a ∈ actions, a.runtime = true)
    (hperm : completionOrder.Perm (splitProcessActions w actions).1) :
    ∃ ra, (splitProcessActions w actions).2 = some ra ∧ ra.runtime = true ∧
      runProcessStage process processRuntime w actions completionOrder
        = completionOrder.map process ++
            [processRuntime ra (completionOrder.map process)] ∧
      ∀ b ∈ completionOrder, b.runtime = false := by
  obtain ⟨a0, ha0mem, ha0rt⟩ := hrt
  have hfilter : a0 ∈ actions.filter (fun a => a.integrityAlgorithm.isSome && a.runtime) :=
    List.mem_filter.mpr ⟨ha0mem, by simp [hsri a0 ha0mem, ha0rt]⟩
  have hne : actions.filter (fun a => a.integrityAlgorithm.isSome && a.runtime) ≠ [] :=
    List.ne_nil_of_mem hfilter
  obtain ⟨ra, hra⟩ := Option.ne_none_iff_exists'.mp
    (mt List.getLast?_eq_none_iff.mp hne)
  have hramem : ra ∈ actions.filter (fun a => a.integrityAlgorithm.isSome && a.runtime) := by
    obtain ⟨hne2, hx⟩ := List.mem_getLast?_eq_getLast
      (show ra ∈ (actions.filter
        (fun a => a.integrityAlgorithm.isSome && a.runtime)).getLast? from by
          rw [Option.mem_def, hra])
    rw [hx]
    exact List.getLast_mem hne2
  have hrart : ra.runtime = true := by
    have := (List.mem_filter.mp hramem).2
    simp at this
    exact this.2
  refine ⟨ra, by rw [splitProcessActions_snd, hra], hrart, ?_, ?_⟩
  · simp only [runProcessStage]
    rw [splitProcessActions_snd, hra]
  · intro b hb
    have hbmem : b ∈ (splitProcessActions w actions).1 := hperm.mem_iff.mp hb
    rw [splitProcessActions_fst] at hbmem
    obtain ⟨a, hamem, hab⟩ := List.mem_map.mp hbmem
    obtain ⟨hain, hcond⟩ := List.mem_filter.mp hamem
    have : a.runtime = false := by
      simp [hsri a hain] at hcond
      exact hcond
    rw [← hab]
    exact this

/-- Witness for `runtime_result_appended_last` at a concrete input. -/
theorem runtime_result_appended_last_witness :
    ((splitProcessActions none [runtimeActionSRI, mainActionSRI]).2
        = some runtimeActionSRI) ∧
    runProcessStage procNameOnly procRuntimeNameOnly none
        [runtimeActionSRI, mainActionSRI] [{ mainActionSRI with replacements := none }]
      = [{ name := "0" }, { name := "r" }] := by
  have hv : (splitProcessActions none [runtimeActionSRI, mainActionSRI]).2
      = some runtimeActionSRI := by rfl
  have hperm : [{ mainActionSRI with replacements := none }].Perm
      (splitProcessActions none [runtimeActionSRI, mainActionSRI]).1 := by
    have h1 : (splitProcessActions none [runtimeActionSRI, mainActionSRI]).1
        = [{ mainActionSRI with replacements := none }] := by rfl
    rw [h1]
  obtain ⟨ra, hra, hrt2, heq, hall⟩ :=
    runtime_result_appended_last procNameOnly procRuntimeNameOnly none
      [runtimeActionSRI, mainActionSRI] [{ mainActionSRI with replacements := none }]
      (by decide) ⟨runtimeActionSRI, by decide, by decide⟩ hperm
  have hra' : ra = runtimeActionSRI := by
    rw [hv] at hra
    exact (Option.some.injEq _ _ ▸ hra).symm
  refine ⟨hv, ?_⟩
  rw [heq, hra']
  rfl

/-- C1 counterexample: with a runtime chunk present but subresource integrity
disabled, the runtime action is not withheld (`splitProcessActions` keeps it
in the batch) and a completion order equal to the submission order yields the
runtime result first and a non-runtime result last — the claim's "regardless
of other options" fails. -/
theorem runtime_result_appended_last_cx :
    ((splitProcessActions none [runtimeActionNoSRI, mainActionNoSRI]).2 = none) ∧
    runtimeActionNoSRI.runtime = true ∧
    runProcessStage procNameOnly procRuntimeNameOnly none
        [runtimeActionNoSRI, mainActionNoSRI]
        (splitProcessActions none [runtimeActionNoSRI, mainActionNoSRI]).1
      = [{ name := "r" }, { name := "0" }] ∧
    procNameOnly runtimeActionNoSRI = { name := "r" } ∧
    (runProcessStage procNameOnly procRuntimeNameOnly none
        [runtimeActionNoSRI, mainActionNoSRI]
        (splitProcessActions none [runtimeActionNoSRI, mainActionNoSRI]).1).getLast?
      = some { name := "0" } := by
  refine ⟨rfl, rfl, rfl, rfl, rfl⟩

theorem inlineActionsOfResult_count (read : String → String) (base : String)
    (mt : Option String) (mci : Option String)
    (acc : List InlineOptions × List String) (r : ProcessBundleResult) :
    (inlineActionsOfResult read base mt mci acc r).1.countP (fun a => a.setLocale)
      = acc.1.countP (fun a => a.setLocale)
        + (if mci == some r.name then variantCount r else 0) := by
  unfold inlineActionsOfResult variantCount
  cases ho : r.original <;> cases hd : r.downlevel <;>
    by_cases hm : mci == some r.name <;>
      simp [ho, hd, hm, List.countP_append, List.countP_cons]

theorem createInlineActions_foldl_count (read : String → String) (base : String)
    (mt : Option String) (mci : Option String) (results : List ProcessBundleResult)
    (acc : List InlineOptions × List String) :
    (results.foldl (inlineActionsOfResult read base mt mci) acc).1.countP
        (fun a => a.setLocale)
      = acc.1.countP (fun a => a.setLocale)
        + (results.map (fun r => if mci == some r.name then variantCount r else 0)).sum := by
  induction results generalizing acc with
  | nil => simp
  | cons r rest ih =>
    rw [List.foldl_cons, ih, inlineActionsOfResult_count]
    rw [List.map_cons, List.sum_cons, Nat.add_assoc]

/-- C2 (amended): an `InlineOptions` action gets `setLocale = true` exactly
when it is derived from a `ProcessBundleResult` whose name equals the main
chunk id — one action per present artifact variant of that result (so up to
two, not exactly one): the number of `setLocale = true` actions equals the
total variant count of the main-chunk results. -/
theorem inline_setLocale_count (read : String → String) (base : String)
    (mt : Option String) (mci : Option String) (results : List ProcessBundleResult) :
    (createInlineActions read base mt mci results).1.countP (fun a => a.setLocale)
      = (results.map (fun r => if mci == some r.name then variantCount r else 0)).sum := by
  unfold createInlineActions
  rw [createInlineActions_foldl_count]
  simp

/-- C2 counterexample: when the main-chunk result has both artifact variants,
two `InlineOptions` actions carry `setLocale = true` — not exactly one. -/
theorem inline_setLocale_count_cx :
    ((createInlineActions (fun _ => "") "dist" none (some "0")
        [mainResultBothVariants]).1.countP (fun a => a.setLocale)) = 2 ∧
    ((createInlineActions (fun _ => "") "dist" none (some "0")
        [mainResultBothVariants]).1.length) = 2 := by
  refine ⟨rfl, rfl⟩

theorem classifyStep_proj (sepn : List String) (ao : ActionOptions) (out : String)
    (read : String → String) (readMap : String → Option String)
    (st : ClassifyState) (f : EmittedFile) :
    (classifyStep sepn ao out read readMap st f).seen
        = (if reachesDedup sepn f && !(st.seen.contains f.file)
           then st.seen ++ [f.file] else st.seen) ∧
    (classifyStep sepn ao out read readMap st f).actions
        = st.actions ++ (if reachesDedup sepn f && !(st.seen.contains f.file)
           then [mkAction ao out read readMap f] else []) ∧
    (classifyStep sepn ao out read readMap st f).mainChunkId
        = (if (reachesDedup sepn f && !(st.seen.contains f.file))
              && vendorMainCond st.mainChunkId f
           then some (f.id.getD "") else st.mainChunkId) := by
  unfold classifyStep
  by_cases ca : f.asset <;>
  by_cases cw : jsEndsWith f.file ".worker.js" <;>
  by_cases c2 : isPassThrough sepn f <;>
  by_cases c3 : f.file ∈ st.seen <;>
  by_cases c4 : vendorMainCond st.mainChunkId f <;>
  by_cases c5 : jsStartsWith f.file "polyfills-es5" <;>
  by_cases c6 : jsStartsWith f.file "polyfills-es20" <;>
    simp [reachesDedup, ca, cw, c2, c3, c4, c5, c6]

theorem classify_foldl_proj (sepn : List String) (ao : ActionOptions) (out : String)
    (read : String → String) (readMap : String → Option String)
    (l : List EmittedFile) (st : ClassifyState) :
    (l.foldl (classifyStep sepn ao out read readMap) st).actions
        = st.actions ++ (dedupScripts sepn st.seen l).map (mkAction ao out read readMap) ∧
    (l.foldl (classifyStep sepn ao out read readMap) st).mainChunkId
        = mainChunkFold st.mainChunkId (dedupScripts sepn st.seen l) := by
  induction l generalizing st with
  | nil => simp [dedupScripts, mainChunkFold]
  | cons f rest ih =>
    obtain ⟨hseen, hact, hmci⟩ := classifyStep_proj sepn ao out read readMap st f
    rw [List.foldl_cons]
    obtain ⟨ihact, ihmci⟩ := ih (classifyStep sepn ao out read readMap st f)
    by_cases hr : reachesDedup sepn f
    · by_cases hc : f.file ∈ st.seen
      · constructor
        · rw [ihact, hact, hseen]
          simp [dedupScripts, hr, hc]
        · rw [ihmci, hmci, hseen]
          simp [dedupScripts, hr, hc]
      · constructor
        · rw [ihact, hact, hseen]
          simp [dedupScripts, hr, hc, mainChunkFold]
        · rw [ihmci, hmci, hseen]
          simp [dedupScripts, hr, hc, mainChunkFold]
    · constructor
      · rw [ihact, hact, hseen]
        simp [dedupScripts, hr]
      · rw [ihmci, hmci, hseen]
        simp [dedupScripts, hr]

theorem dedupScripts_count_of_mem (sepn : List String) (l : List EmittedFile)
    (seen : List String) (p : String) (h : p ∈ seen) :
    ((dedupScripts sepn seen l).map (fun f => f.file)).count p = 0 := by
  induction l generalizing seen with
  | nil => simp [dedupScripts]
  | cons f rest ih =>
    unfold dedupScripts
    by_cases hr : reachesDedup sepn f
    · rw [if_pos hr]
      by_cases hc : f.file ∈ seen
      · rw [if_pos (show seen.contains f.file = true from by simpa using hc)]
        exact ih seen h
      · rw [if_neg (show ¬ seen.contains f.file = true from by simpa using hc)]
        have hfp : f.file ≠ p := fun hfp => hc (hfp ▸ h)
        have hrec := ih (seen ++ [f.file]) (by simp [h])
        simp [hrec, List.count_cons, Ne.symm hfp]
    · rw [if_neg hr]
      exact ih seen h

theorem dedupScripts_count_of_not_mem (sepn : List String) (l : List EmittedFile)
    (seen : List String) (p : String) (h : p ∉ seen) :
    ((dedupScripts sepn seen l).map (fun f => f.file)).count p
      = (if l.any (fun f => reachesDedup sepn f && f.file == p) then 1 else 0) := by
  induction l generalizing seen with
  | nil => simp [dedupScripts]
  | cons f rest ih =>
    unfold dedupScripts
    by_cases hr : reachesDedup sepn f
    · rw [if_pos hr]
      by_cases hc : f.file ∈ seen
      · rw [if_pos (show seen.contains f.file = true from by simpa using hc)]
        have hfp : f.file ≠ p := fun hfp => h (hfp ▸ hc)
        rw [ih seen h]
        simp [hr, Ne.symm hfp, List.any_cons, hfp]
      · rw [if_neg (show ¬ seen.contains f.file = true from by simpa using hc)]
        by_cases hp : f.file = p
        · have h0 := dedupScripts_count_of_mem sepn rest (seen ++ [p]) p (by simp)
          simp [hr, h0, hp, List.count_cons, List.any_cons]
        · have hrec := ih (seen ++ [f.file]) (by
            intro hmem
            rcases List.mem_append.mp hmem with hm | hm
            · exact h hm
            · exact hp (List.mem_singleton.mp hm).symm)
          simp [hr, hrec, List.count_cons, List.any_cons, hp, Ne.symm hp]
    · rw [if_neg hr]
      rw [ih seen h]
      simp [hr, List.any_cons]

/-- C6 (amended): classification deduplicates **processable scripts** by path:
the recorded actions are exactly one per first occurrence of each path that
reaches the dedup check, so each processable `.js` script path yields exactly
one `ProcessBundleOptions` action no matter how often it occurs in the input
(while the pass-through and worker groups keep duplicates, and a `.worker.js`
script asset is recorded both as a worker replacement and as an action). -/
theorem classify_actions_dedup (sepn : List String) (ao : ActionOptions) (out : String)
    (read : String → String) (readMap : String → Option String)
    (emitted : List EmittedFile) :
    (classify sepn ao out read readMap emitted).actions
        = (dedupScripts sepn [] emitted).map (mkAction ao out read readMap) ∧
    ∀ p, ((dedupScripts sepn [] emitted).map (fun f => f.file)).count p
        = (if emitted.any (fun f => reachesDedup sepn f && f.file == p) then 1 else 0) := by
  constructor
  · have h := (classify_foldl_proj sepn ao out read readMap emitted {}).1
    simpa [classify] using h
  · intro p
    exact dedupScripts_count_of_not_mem sepn emitted [] p (by simp)

/-- C6 counterexample: the classification output is not a deduplicated-by-path
partition — a duplicated `.css` emitted record appears twice in the
pass-through group, and a `.worker.js` script asset lands in two groups at
once (worker replacements and processable-script actions). -/
theorem classify_actions_dedup_cx :
    (classify [] {} "dist" (fun _ => "") (fun _ => none)
        [cssEmittedFile, cssEmittedFile]).files
      = [cssEmittedFile, cssEmittedFile] ∧
    (classify [] {} "dist" (fun _ => "") (fun _ => none)
        [workerEmittedFile]).workerReplacements
      = some [("0-es2015.worker.js", "0-es5.worker.js")] ∧
    ((classify [] {} "dist" (fun _ => "") (fun _ => none)
        [workerEmittedFile]).actions).length = 1 := by
  refine ⟨rfl, by decide, rfl⟩

theorem dedupScripts_subset (sepn : List String) (seen : List String)
    (l : List EmittedFile) (f : EmittedFile) (h : f ∈ dedupScripts sepn seen l) :
    f ∈ l := by
  induction l generalizing seen with
  | nil => simp [dedupScripts] at h
  | cons g rest ih =>
    unfold dedupScripts at h
    by_cases hr : reachesDedup sepn g
    · rw [if_pos hr] at h
      by_cases hc : seen.contains g.file
      · rw [if_pos hc] at h
        exact List.mem_cons_of_mem g (ih seen h)
      · rw [if_neg hc] at h
        rcases List.mem_cons.mp h with heq | htail
        · exact heq ▸ List.mem_cons_self g rest
        · exact List.mem_cons_of_mem g (ih (seen ++ [g.file]) htail)
    · rw [if_neg hr] at h
      exact List.mem_cons_of_mem g (ih seen h)

theorem mainChunkFold_truthy (l : List EmittedFile) (s : String) (hs : s ≠ "")
    (hv : ∀ f ∈ l, f.name = some "vendor" → f.id.getD "" ≠ "") :
    mainChunkFold (some s) l
      = (match (l.filter (fun f => f.name == some "vendor")).getLast? with
         | some v => some (v.id.getD "")
         | none => some s) := by
  induction l generalizing s with
  | nil => simp [mainChunkFold]
  | cons f rest ih =>
    by_cases hf : f.name = some "vendor"
    · have hstep : mainChunkFold (some s) (f :: rest)
          = mainChunkFold (some (f.id.getD "")) rest := by
        simp [mainChunkFold, vendorMainCond, hf]
      rw [hstep, ih (f.id.getD "")
        (hv f (List.mem_cons_self f rest) hf)
        (fun g hg => hv g (List.mem_cons_of_mem f hg))]
      rw [List.filter_cons, if_pos (by simpa using hf)]
      cases hfr : rest.filter (fun f => f.name == some "vendor") with
      | nil => simp [hfr]
      | cons y ys =>
        simp only [hfr, List.getLast?_cons_cons]
        cases hg : (y :: ys).getLast? with
        | none => exact absurd (List.getLast?_eq_none_iff.mp hg) (by simp)
        | some x => rfl
    · have hstep : mainChunkFold (some s) (f :: rest) = mainChunkFold (some s) rest := by
        simp [mainChunkFold, vendorMainCond, hf, jsFalsyOptStr, jsTruthyOptStr, hs]
      rw [hstep, ih s hs (fun g hg => hv g (List.mem_cons_of_mem f hg))]
      rw [List.filter_cons, if_neg (by simpa using hf)]

theorem mainChunkFold_none_eq (l : List EmittedFile)
    (hv : ∀ f ∈ l, f.id.getD "" ≠ "") :
    mainChunkFold none l = mainChunkIdLastVendor l := by
  induction l with
  | nil => simp [mainChunkFold, mainChunkIdLastVendor]
  | cons f rest ih =>
    by_cases hf : f.name = some "vendor"
    · have hstep : mainChunkFold none (f :: rest)
          = mainChunkFold (some (f.id.getD "")) rest := by
        simp [mainChunkFold, vendorMainCond, hf]
      rw [hstep, mainChunkFold_truthy rest (f.id.getD "")
        (hv f (List.mem_cons_self f rest))
        (fun g hg _ => hv g (List.mem_cons_of_mem f hg))]
      unfold mainChunkIdLastVendor
      rw [List.filter_cons, if_pos (by simpa using hf)]
      cases hfr : rest.filter (fun f => f.name == some "vendor") with
      | nil => simp [hfr]
      | cons y ys =>
        simp only [hfr, List.getLast?_cons_cons]
        cases hg : (y :: ys).getLast? with
        | none => exact absurd (List.getLast?_eq_none_iff.mp hg) (by simp)
        | some x => rfl
    · by_cases hm : f.name = some "main"
      · have hstep : mainChunkFold none (f :: rest)
            = mainChunkFold (some (f.id.getD "")) rest := by
          simp [mainChunkFold, vendorMainCond, hf, hm, jsFalsyOptStr, jsTruthyOptStr]
        rw [hstep, mainChunkFold_truthy rest (f.id.getD "")
          (hv f (List.mem_cons_self f rest))
          (fun g hg _ => hv g (List.mem_cons_of_mem f hg))]
        unfold mainChunkIdLastVendor
        rw [List.filter_cons, if_neg (by simpa using hf)]
        cases hfr : rest.filter (fun f => f.name == some "vendor") with
        | nil =>
          simp only [List.getLast?_nil]
          rw [List.find?_cons, show (f.name == some "main") = true from by simpa using hm]
          rfl
        | cons y ys =>
          cases hg : (y :: ys).getLast? with
          | none => exact absurd (List.getLast?_eq_none_iff.mp hg) (by simp)
          | some x => rfl
      · have hstep : mainChunkFold none (f :: rest) = mainChunkFold none rest := by
          simp [mainChunkFold, vendorMainCond, hf, hm]
        rw [hstep, ih (fun g hg => hv g (List.mem_cons_of_mem f hg))]
        unfold mainChunkIdLastVendor
        rw [List.filter_cons, if_neg (by simpa using hf)]
        cases hfr : rest.filter (fun f => f.name == some "vendor") with
        | nil =>
          simp only [List.getLast?_nil]
          rw [List.find?_cons, show (f.name == some "main") = false from by simpa using hm]
        | cons y ys => rfl

/-- C7 (amended): classification's main chunk id is the chunk id of the
**last** deduplicated emitted script named `vendor` (each later `vendor`
overwrites the earlier); only when no deduplicated script is named `vendor`
is it the chunk id of the first script named `main`. -/
theorem classify_mainChunkId_last_vendor (sepn : List String) (ao : ActionOptions)
    (out : String) (read : String → String) (readMap : String → Option String)
    (emitted : List EmittedFile)
    (hids : ∀ f ∈ emitted, f.id.getD "" ≠ "") :
    (classify sepn ao out read readMap emitted).mainChunkId
      = mainChunkIdLastVendor (dedupScripts sepn [] emitted) := by
  have hfold := (classify_foldl_proj sepn ao out read readMap emitted {}).2
  have hcl : (classify sepn ao out read readMap emitted).mainChunkId
      = mainChunkFold none (dedupScripts sepn [] emitted) := hfold
  rw [hcl]
  exact mainChunkFold_none_eq (dedupScripts sepn [] emitted)
    (fun f hf => hids f (dedupScripts_subset sepn [] emitted f hf))

/-- Witness for `classify_mainChunkId_last_vendor` at a concrete input: a
`main` script followed by a `vendor` script. -/
theorem classify_mainChunkId_last_vendor_witness :
    (classify [] {} "dist" (fun _ => "") (fun _ => none)
        [mainFileM, vendorFileA]).mainChunkId
      = mainChunkIdLastVendor (dedupScripts [] [] [mainFileM, vendorFileA]) ∧
    mainChunkIdLastVendor (dedupScripts [] [] [mainFileM, vendorFileA]) = some "1" :=
  ⟨classify_mainChunkId_last_vendor [] {} "dist" (fun _ => "") (fun _ => none)
      [mainFileM, vendorFileA] (by decide),
   by decide⟩

/-- C7 counterexample: with two deduplicated scripts named `vendor`, the code
records the id of the **last** one (`"2"`), not the first (`"1"`) as the
claim states. -/
theorem classify_mainChunkId_last_vendor_cx :
    (classify [] {} "dist" (fun _ => "") (fun _ => none)
        [vendorFileA, vendorFileB]).mainChunkId = some "2" ∧
    mainChunkIdSpecFirstVendor (dedupScripts [] [] [vendorFileA, vendorFileB])
      = some "1" ∧
    (some "2" : Option String) ≠ some "1" := by
  refine ⟨by decide, by decide, by decide⟩

end AngularBuild
